import Mathlib

/-!
Verification development for the GreenProject arbitrage client.

This file gives a shallow embedding of the parts of the repository that the
claims concern:

* `src/client/src/arb.rs` — gas model (`calculate_gas_cost`,
  `calculate_min_profitable_spread`) and the bounded-depth DFS
  (`brute_force_search`) with its layered close-evaluation filters and
  deduplication;
* `src/client/src/pools/orca.rs` and `src/client/src/pools/saber.rs` —
  `can_trade` and `set_update_accounts` (the two files share the same logic,
  differing only in log strings);
* `src/client/src/websocket.rs` — `RpcProvider::calculate_health_score`.

Machine integers are modelled as `Nat` with explicit wrapping (`% 2^64`,
`% 2^128`) exactly where the Rust code can overflow, and `checked_*`
operations as explicit bound tests.  Floating-point spread and score
computations of the source are modelled exactly over `Nat`/`ℚ`: every f64
value the code compares is of the form `integer / 100`, so the comparisons
are integer comparisons; the health score is modelled over `ℚ`.
-/

/-- `u64::MAX`. -/
def U64MAX : Nat := 18446744073709551615

/-- One past `u128::MAX`; `% U128MOD` models `u128` wrapping multiplication. -/
def U128MOD : Nat := 340282366920938463463374607431768211456

/-- From `arb.rs` (`Arbitrager::calculate_gas_cost`): base fee 5000 lamports,
plus `num_swaps * 200_000 CU * 1_000 microlamports / 10^6` via `checked_mul`
chains that fall back to `0` on overflow, plus a Jito tip of `10^7` lamports
when requested; the final `checked_add` chain saturates to `u64::MAX`. -/
def calculate_gas_cost (num_swaps : Nat) (use_jito : Bool) : Nat :=
  let compute_cost :=
    if num_swaps * 200000 ≤ U64MAX ∧ num_swaps * 200000 * 1000 ≤ U64MAX then
      num_swaps * 200000 * 1000 / 1000000
    else 0
  let jito_tip := if use_jito then 10000000 else 0
  if 5000 + compute_cost ≤ U64MAX ∧ 5000 + compute_cost + jito_tip ≤ U64MAX then
    5000 + compute_cost + jito_tip
  else U64MAX

/-- From `arb.rs` (`Arbitrager::calculate_min_profitable_spread`): the gas
cost converted to basis points of the trade amount (`u128` arithmetic, the
final `bp as u64` cast truncating modulo `2^64`), `u64::MAX` for a zero trade
amount, and never below the 300 bp absolute floor. -/
def calculate_min_profitable_spread (trade_amount num_swaps : Nat) (use_jito : Bool) : Nat :=
  let gas_cost := calculate_gas_cost num_swaps use_jito
  let min_spread_from_gas :=
    if 0 < trade_amount then
      if gas_cost * 10000 < U128MOD then gas_cost * 10000 / trade_amount % (U64MAX + 1)
      else U64MAX
    else U64MAX
  max min_spread_from_gas 300

/-- A pool handle as seen from one directed edge of the graph.  The DFS in
`brute_force_search` only observes a pool through `can_trade` (which in this
code base ignores its mint arguments), `get_pool_reserves(src, dst)`,
`get_name`, and a `catch_unwind`-wrapped `get_quote_with_amounts_scaled`;
`quote = none` models a panicking quote kernel. -/
structure PoolQ where
  name : String
  canTrade : Bool
  reservesIn : Option (Nat × Nat)
  quote : Nat → Option Nat

/-- One opportunity record as logged/emitted by `brute_force_search` when a
candidate cycle passes every filter. -/
structure Emission where
  path : List Nat
  poolNames : List String
  key : String
  newBalance : Nat
  minOutput : Nat
  optimisticScaled : Nat
  realisticScaled : Nat
  slippageBp : Nat
deriving DecidableEq

/-- The static inputs of the search: adjacency lists (`graph_edges`), the
directed pool multigraph (`graph`), and the dry-run flag. -/
structure SearchCfg where
  edges : Nat → List Nat
  pools : Nat → Nat → List PoolQ
  dryRun : Bool

/-- Result of one search call: emitted opportunities in order, and the
updated `sent_arbs` set (modelled as a list). -/
abbrev SearchRes := List Emission × List String

/-- Type of the recursive call threaded through the loop bodies. -/
abbrev Recur := Nat → List Nat → List PoolQ → List String → SearchRes

/-- `(profit as u128 * 10000) / init_balance` from the spread computations in
`brute_force_search` (`percentage_scaled`); the unchecked `u128`
multiplication wraps, and a zero balance yields `0.0`. -/
def scaledPct (init profit : Nat) : Nat :=
  if 0 < init then profit * 10000 % U128MOD / init else 0

/-- Pool-size classification at close (`arb.rs` lines 398–415), keyed on the
first pool's input reserve: `(slippage_tolerance_bp, min_spread_bp)` for
unknown/small/mid/large pools. -/
def poolClassParams (rin : Nat) : Nat × Nat :=
  if rin = 0 then (500, 300)
  else if rin < 10000000 then (300, 200)
  else if rin < 100000000 then (400, 250)
  else (500, 300)

/-- Price-impact ceiling (in whole percent) per pool class
(`arb.rs` lines 197–210): unknown 1, small 3, mid 2, large 1. -/
def impactLimitOf (rin : Nat) : Nat :=
  if rin = 0 then 1 else if rin < 10000000 then 3 else if rin < 100000000 then 2 else 1

/-- `min_output = new_balance.checked_mul(10_000 - slippage).checked_div(10_000)
.unwrap_or(0)` from the close evaluation. -/
def minOutputOf (nb slip : Nat) : Nat :=
  if nb * (10000 - slip) < U128MOD then nb * (10000 - slip) / 10000 else 0

/-- `get_pool_reserves` of the first pool of the cycle, defaulted to `(0,0)`
(`unwrap_or((0, 0))`), input side. -/
def firstRin (pp : List PoolQ) : Nat :=
  (match pp with
   | [] => ((0 : Nat), (0 : Nat))
   | p :: _ => p.reservesIn.getD (0, 0)).1

/-- Deduplication key: decimal vertex indices concatenated, then pool names
concatenated (`format!("{}{}", mint_keys.join(""), pool_keys.join(""))`). -/
def arbKey (p : List Nat) (pp : List PoolQ) : String :=
  String.join (p.map Nat.repr) ++ String.join (pp.map PoolQ.name)

/-- The close evaluation of `brute_force_search` (`arb.rs` lines 279–518):
require `new_balance > init_balance`; reject optimistic spreads above 10%
(`percentage_scaled > 1000`); reject spreads below the gas-based minimum;
apply the pool-class slippage tolerance to get `min_output` and reject
`min_output < init_balance`; reject realistic spreads below
`max(gas minimum, pool-class floor)`; finally deduplicate on `arbKey`. -/
def closeEval (init nb : Nat) (newPath : List Nat) (newPP : List PoolQ)
    (sent : List String) : SearchRes :=
  if init < nb then
    if 1000 < scaledPct init (nb - init) then ([], sent)
    else if scaledPct init (nb - init) <
        calculate_min_profitable_spread init (newPath.length - 1) false then ([], sent)
    else if minOutputOf nb (poolClassParams (firstRin newPP)).1 < init then ([], sent)
    else if scaledPct init (minOutputOf nb (poolClassParams (firstRin newPP)).1 - init) <
        max (calculate_min_profitable_spread init (newPath.length - 1) false)
          (poolClassParams (firstRin newPP)).2 then ([], sent)
    else if arbKey newPath newPP ∈ sent then ([], sent)
    else
      ([{ path := newPath
          poolNames := newPP.map PoolQ.name
          key := arbKey newPath newPP
          newBalance := nb
          minOutput := minOutputOf nb (poolClassParams (firstRin newPP)).1
          optimisticScaled := scaledPct init (nb - init)
          realisticScaled :=
            scaledPct init (minOutputOf nb (poolClassParams (firstRin newPP)).1 - init)
          slippageBp := (poolClassParams (firstRin newPP)).1 }],
        arbKey newPath newPP :: sent)
  else ([], sent)

/-- One iteration of the inner pool loop of `brute_force_search`: skip pools
that cannot trade, skip on excessive price impact
(`curr / r_in * 100 > limit`, i.e. `curr * 100 > limit * r_in`), skip
panicking (`none`) and zero quotes, then either close the cycle
(`dst = start`) or recurse on an unvisited vertex. -/
def processPool (recur : Recur) (start init curr : Nat) (path : List Nat)
    (pp : List PoolQ) (dst : Nat) (pool : PoolQ) (sent : List String) : SearchRes :=
  if pool.canTrade = false then ([], sent)
  else if 0 < (pool.reservesIn.getD (0, 0)).1 ∧ 0 < curr ∧
      impactLimitOf (pool.reservesIn.getD (0, 0)).1 * (pool.reservesIn.getD (0, 0)).1 <
        curr * 100 then ([], sent)
  else
    match pool.quote curr with
    | none => ([], sent)
    | some nb =>
      if nb = 0 then ([], sent)
      else if dst = start then closeEval init nb (path ++ [dst]) (pp ++ [pool]) sent
      else if dst ∉ path then recur nb (path ++ [dst]) (pp ++ [pool]) sent
      else ([], sent)

/-- The pool loop (`for pool in pools`), threading `sent_arbs`. -/
def processPools (recur : Recur) (start init curr : Nat) (path : List Nat)
    (pp : List PoolQ) (dst : Nat) : List PoolQ → List String → SearchRes
  | [], sent => ([], sent)
  | pool :: rest, sent =>
    let r1 := processPool recur start init curr path pp dst pool sent
    let r2 := processPools recur start init curr path pp dst rest r1.2
    (r1.1 ++ r2.1, r2.2)

/-- The neighbour loop (`for dst_mint_idx in out_edges`): a vertex already in
the path is skipped unless it is the start. -/
def processDsts (cfg : SearchCfg) (recur : Recur) (start init curr : Nat)
    (path : List Nat) (pp : List PoolQ) (src : Nat) :
    List Nat → List String → SearchRes
  | [], sent => ([], sent)
  | dst :: rest, sent =>
    let r1 :=
      if dst ∈ path ∧ dst ≠ start then ([], sent)
      else processPools recur start init curr path pp dst (cfg.pools src dst) sent
    let r2 := processDsts cfg recur start init curr path pp src rest r1.2
    (r1.1 ++ r2.1, r2.2)

/-- `Arbitrager::brute_force_search`, with an explicit recursion-fuel
parameter (the Rust recursion is unbounded syntactically; the termination
claim C10 shows any fuel beyond the vertex count is irrelevant).  A path of
four vertices returns immediately; otherwise every neighbour of the last
vertex is expanded. -/
def brute_force_search (cfg : SearchCfg) :
    Nat → Nat → Nat → Nat → List Nat → List PoolQ → List String → SearchRes
  | 0, _start, _init, _curr, _path, _pp, sent => ([], sent)
  | fuel + 1, start, init, curr, path, pp, sent =>
    if path.length = 4 then ([], sent)
    else
      processDsts cfg (brute_force_search cfg fuel start init) start init curr path pp
        (path.getLastD 0) (cfg.edges (path.getLastD 0)) sent

/-- Transactions sent for a search result: one per emitted opportunity unless
`--dry-run` suppresses submission (`arb.rs` lines 505–518). -/
def transactionsOf (cfg : SearchCfg) (r : SearchRes) : List Emission :=
  if cfg.dryRun then [] else r.1

/-! ### Pool reserve maps (`pools/orca.rs`, `pools/saber.rs`)

`pool_amounts : HashMap<String, u128>` is modelled as an association list
with `mapInsert` giving the HashMap insert-or-overwrite semantics. -/

/-- Lookup in an association list (HashMap `get`). -/
def lookupMap (m : List (String × Nat)) (k : String) : Option Nat :=
  match m with
  | [] => none
  | kv :: rest => if kv.1 = k then some kv.2 else lookupMap rest k

/-- HashMap `insert`: overwrite the binding of `k` if present, else append. -/
def mapInsert (m : List (String × Nat)) (k : String) (v : Nat) : List (String × Nat) :=
  match m with
  | [] => [(k, v)]
  | kv :: rest => if kv.1 = k then (k, v) :: rest else kv :: mapInsert rest k v

/-- `OrcaPool::can_trade` / `SaberPool::can_trade` (identical): return
`false` as soon as any stored reserve amount is zero, `true` otherwise —
including for an empty map; the mint arguments are ignored by the code. -/
def can_trade (pool_amounts : List (String × Nat)) (_mint_in _mint_out : String) : Bool :=
  pool_amounts.all (fun kv => kv.2 != 0)

/-- Modelled from the spec: `serialize::token::unpack_token_account` is not
under `src/`.  Per the spec (§3 Token account), a payload is a fixed-width
165-byte buffer holding a u64 `amount`, its decode must reject any payload
that is not exactly 165 bytes, and corrupt payloads must not abort the
process.  A payload is therefore modelled by the two observations the callers
make of it: its byte length (`data.len()`) and the outcome of unpacking
(`some amount`, or `none` when `unpack_token_account` panics on corrupt
data). -/
structure AccountData where
  len : Nat
  unpackAmount : Option Nat
deriving DecidableEq

/-- `OrcaPool::set_update_accounts` / `SaberPool::set_update_accounts`
(identical logic): needs at least two snapshot elements, both present
(`Some`), both exactly 165 bytes, both unpackable; only then are the two
reserve entries overwritten.  Elements beyond the first two are ignored. -/
def set_update_accounts (pool_amounts : List (String × Nat)) (id0 id1 : String)
    (accounts : List (Option AccountData)) : List (String × Nat) :=
  match accounts with
  | a0 :: a1 :: _ =>
    match a0, a1 with
    | some acc0, some acc1 =>
      if acc0.len ≠ 165 then pool_amounts
      else if acc1.len ≠ 165 then pool_amounts
      else
        match acc0.unpackAmount, acc1.unpackAmount with
        | some amount0, some amount1 =>
          mapInsert (mapInsert pool_amounts id0 amount0) id1 amount1
        | _, _ => pool_amounts
    | _, _ => pool_amounts
  | _ => pool_amounts

/-! ### Provider health scoring (`websocket.rs`) -/

/-- `RpcProvider::calculate_health_score`, modelled exactly over `ℚ`
(the source computes in f64): with history, a 0–100 score
`success_rate·60 + priority_factor·20 + rate_limit_factor·20` clamped via
`.max(0.0).min(100.0)`; without history, `100 − priority·10` unclamped. -/
def calculate_health_score (priority rate_limit success_count failure_count : Nat) : ℚ :=
  if success_count + failure_count = 0 then 100 - (priority : ℚ) * 10
  else
    min
      (max (((success_count : ℚ) / ((success_count : ℚ) + (failure_count : ℚ))) * 60 +
            (1 - (priority : ℚ) * (1 / 10)) * 20 +
            (min ((rate_limit : ℚ) / 1000) 1) * 20)
        0)
      100

/-! ### Spec-side definitions, written from the claims for comparison -/

/-- The health-score formula exactly as claim C7 words it:
`0.6·success_rate + 0.2·priority_factor + 0.2·rate_limit_factor`. -/
def claimed_health_score (priority rate_limit success_count failure_count : Nat) : ℚ :=
  (6 / 10) * ((success_count : ℚ) / ((success_count : ℚ) + (failure_count : ℚ))) +
  (2 / 10) * (1 - (priority : ℚ) * (1 / 10)) +
  (2 / 10) * (min ((rate_limit : ℚ) / 1000) 1)

/-- `can_trade` as claim C4 words it: true iff the mint pair matches the
pool's two mints and both of the pool's reserves are populated and
non-zero. -/
def can_trade_spec (pool_amounts : List (String × Nat)) (m0 m1 mint_in mint_out : String) : Bool :=
  (decide ((mint_in = m0 ∧ mint_out = m1) ∨ (mint_in = m1 ∧ mint_out = m0))) &&
  (match lookupMap pool_amounts mint_in with | some v => v != 0 | none => false) &&
  (match lookupMap pool_amounts mint_out with | some v => v != 0 | none => false)

/-- The gas model exactly as claim C3 words it:
`gas = 5000 + k·200000·1000/10^6` plus a `10^7` tip when requested. -/
def claim_gas_cost (k : Nat) (j : Bool) : Nat :=
  5000 + k * 200000 * 1000 / 1000000 + (if j then 10000000 else 0)

/-- The minimum profitable spread exactly as claim C3 words it:
`max(300, gas·10^4 / a0)`. -/
def claim_min_spread (a0 k : Nat) (j : Bool) : Nat :=
  max 300 (claim_gas_cost k j * 10000 / a0)

/-! ### Concrete demonstration configuration

A two-vertex graph `0 ↔ 1` with one pool per direction and reserves unknown
(order-book style, so the price-impact filter is skipped and the close
evaluation classifies the cycle as an unknown/large pool).  With reference
amount `1000003` the cycle `0 → 1 → 0` quotes `1100004`, which passes every
filter of the close evaluation. -/

/-- Demo pool on edge `0 → 1`: identity quote. -/
def poolA : PoolQ :=
  { name := "PA", canTrade := true, reservesIn := none, quote := fun c => some c }

/-- Demo pool on edge `1 → 0`: quotes a `100001` profit. -/
def poolB : PoolQ :=
  { name := "PB", canTrade := true, reservesIn := none, quote := fun c => some (c + 100001) }

/-- Demo search configuration. -/
def cfgDemo : SearchCfg :=
  { edges := fun u => if u = 0 then [1] else if u = 1 then [0] else []
    pools := fun u v =>
      if u = 0 ∧ v = 1 then [poolA] else if u = 1 ∧ v = 0 then [poolB] else []
    dryRun := true }

/-- The single opportunity emitted by the demo run. -/
def demoRun : SearchRes := brute_force_search cfgDemo 3 0 1000003 1000003 [0] [] []

/-- Fallback emission value used with `headD`. -/
def emission0 : Emission :=
  { path := [], poolNames := [], key := "", newBalance := 0, minOutput := 0,
    optimisticScaled := 0, realisticScaled := 0, slippageBp := 0 }

/-- The emission of the demo run. -/
def demoEmission : Emission := demoRun.1.headD emission0

/-- A second search pass over the demo graph, threading the `sent_arbs` set
of the first pass (as the main loop does within one process lifetime). -/
def demoRun2 : SearchRes := brute_force_search cfgDemo 3 0 1000003 1000003 [0] [] demoRun.2

/-! ### Predicates used by the claim theorems -/

/-- The cycle-shape invariant of claim C1 for one emitted opportunity:
first and last vertex equal the start, the intermediate vertices are
pairwise distinct and differ from the start, and the vertex count is 3, 4
or 5. -/
def PathOK (start : Nat) (e : Emission) : Prop :=
  e.path.head? = some start ∧ e.path.getLast? = some start ∧
  ((e.path.drop 1).dropLast).Nodup ∧ start ∉ (e.path.drop 1).dropLast ∧
  (e.path.length = 3 ∨ e.path.length = 4 ∨ e.path.length = 5)

/-- Deduplication invariant of one search run started from the `sent_arbs`
set `sent`: emitted keys are pairwise distinct, none was in `sent`, and the
resulting set holds exactly the old keys plus the emitted ones. -/
def GoodRun (sent : List String) (r : SearchRes) : Prop :=
  (r.1.map Emission.key).Nodup ∧
  (∀ e ∈ r.1, e.key ∉ sent) ∧
  (∀ k : String, k ∈ r.2 ↔ k ∈ r.1.map Emission.key ∨ k ∈ sent)

/-! # Theorems -/

/-! ### C3 — gas model and minimum profitable spread -/

theorem arb_c3_compute_bound (k : Nat) :
    (if k * 200000 * 1000 ≤ U64MAX then 200 * k else 0) ≤ 18446744073709 := by
  split
  · next h2 =>
    have hle : 200 * k * 1000000 ≤ U64MAX := by
      calc 200 * k * 1000000 = k * 200000 * 1000 := by ring
        _ ≤ U64MAX := h2
    have hdd := (Nat.le_div_iff_mul_le (by norm_num : 0 < 1000000)).2 hle
    have hdiv : U64MAX / 1000000 = 18446744073709 := by norm_num [U64MAX]
    omega
  · omega

theorem calculate_gas_cost_eq (k : Nat) (j : Bool) :
    calculate_gas_cost k j =
      5000 + (if k * 200000 * 1000 ≤ U64MAX then 200 * k else 0) +
        (if j then 10000000 else 0) := by
  simp only [calculate_gas_cost]
  have hcc : (if k * 200000 ≤ U64MAX ∧ k * 200000 * 1000 ≤ U64MAX then
        k * 200000 * 1000 / 1000000 else 0) =
      (if k * 200000 * 1000 ≤ U64MAX then 200 * k else 0) := by
    by_cases h2 : k * 200000 * 1000 ≤ U64MAX
    · have h1 : k * 200000 ≤ U64MAX :=
        le_trans (Nat.le_mul_of_pos_right _ (by norm_num)) h2
      rw [if_pos ⟨h1, h2⟩, if_pos h2]
      have hh : k * 200000 * 1000 = 200 * k * 1000000 := by ring
      rw [hh, Nat.mul_div_cancel _ (by norm_num)]
    · rw [if_neg (fun hh => h2 hh.2), if_neg h2]
  rw [hcc]
  have hb := arb_c3_compute_bound k
  have hj : (if j then (10000000 : Nat) else 0) ≤ 10000000 := by cases j <;> simp
  have hU : U64MAX = 18446744073709551615 := rfl
  rw [if_pos ⟨by omega, by omega⟩]

theorem arb_c3_gas_bound (k : Nat) (j : Bool) :
    calculate_gas_cost k j ≤ 18446754078709 := by
  rw [calculate_gas_cost_eq]
  have hb := arb_c3_compute_bound k
  have hj : (if j then (10000000 : Nat) else 0) ≤ 10000000 := by cases j <;> simp
  omega

/-- C3 (amended): for `a0 > 0` the minimum profitable spread equals
`max(300, gas·10^4 / a0)` where the compute-cost component of `gas` is
`200·k` when `k·200000·1000` fits in a `u64` and `0` (not a saturated
maximum) when it overflows; no other intermediate can overflow. -/
theorem arb_c3_min_spread_amended (trade_amount num_swaps : Nat) (use_jito : Bool)
    (h : 0 < trade_amount) :
    calculate_min_profitable_spread trade_amount num_swaps use_jito =
      max 300
        ((5000 + (if num_swaps * 200000 * 1000 ≤ U64MAX then 200 * num_swaps else 0) +
          (if use_jito then 10000000 else 0)) * 10000 / trade_amount) := by
  simp only [calculate_min_profitable_spread]
  rw [if_pos h]
  have hgas := calculate_gas_cost_eq num_swaps use_jito
  have hbound := arb_c3_gas_bound num_swaps use_jito
  have hprod : calculate_gas_cost num_swaps use_jito * 10000 ≤ 184467540787090000 := by
    have hh := Nat.mul_le_mul_right 10000 hbound
    omega
  have hmul : calculate_gas_cost num_swaps use_jito * 10000 < U128MOD := by
    have hU : U128MOD = 340282366920938463463374607431768211456 := rfl
    omega
  rw [if_pos hmul]
  have hsmall : calculate_gas_cost num_swaps use_jito * 10000 / trade_amount < U64MAX + 1 := by
    have h1 : calculate_gas_cost num_swaps use_jito * 10000 / trade_amount ≤
        calculate_gas_cost num_swaps use_jito * 10000 := Nat.div_le_self _ _
    have hU : U64MAX = 18446744073709551615 := rfl
    omega
  rw [Nat.mod_eq_of_lt hsmall, hgas]
  exact max_comm _ _

/-- C3 (counterexample): at `k = 10^11` swaps and `a0 = 10^6` the code's
compute cost overflows `u64` and falls back to `0`, so the code returns the
300 bp floor, while the claim's formula demands `200000000050` bp. -/
theorem arb_c3_counterexample :
    calculate_min_profitable_spread 1000000 100000000000 false = 300 ∧
    claim_min_spread 1000000 100000000000 false = 200000000050 ∧
    (300 : Nat) ≠ 200000000050 := by
  refine ⟨by decide, by decide, by decide⟩

theorem arb_c3_min_spread_witness :
    0 < 1000000 ∧
    calculate_min_profitable_spread 1000000 3 false =
      max 300
        ((5000 + (if 3 * 200000 * 1000 ≤ U64MAX then 200 * 3 else 0) +
          (if false then 10000000 else 0)) * 10000 / 1000000) :=
  ⟨by decide, arb_c3_min_spread_amended 1000000 3 false (by decide)⟩

/-! ### C4 — `can_trade` -/

/-- C4 (counterexample): a pool whose reserves have not been populated at
all trades according to the code (`can_trade` is vacuously true on an empty
map), while the claim requires it not to trade even though the mint pair
matches. -/
theorem pools_c4_counterexample :
    can_trade ([] : List (String × Nat)) "a" "b" = true ∧
    can_trade_spec [] "a" "b" "a" "b" = false := by
  exact ⟨by decide, by decide⟩

/-- C4 (amended): `can_trade` ignores its mint arguments entirely and
returns true iff no stored reserve amount is zero — in particular it returns
true for a pool with no reserves populated, and false as soon as any stored
reserve is zero. -/
theorem pools_c4_can_trade_amended :
    ∀ (pool_amounts : List (String × Nat)) (a b c d : String),
      can_trade pool_amounts a b = can_trade pool_amounts c d ∧
      (can_trade pool_amounts a b = true ↔ ∀ kv ∈ pool_amounts, kv.2 ≠ 0) := by
  intro m a b c d
  refine ⟨rfl, ?_⟩
  simp [can_trade, List.all_eq_true]

/-! ### C5 / C9 — `set_update_accounts` -/

theorem lookupMap_mapInsert_self (m : List (String × Nat)) (k : String) (v : Nat) :
    lookupMap (mapInsert m k v) k = some v := by
  induction m with
  | nil => simp [mapInsert, lookupMap]
  | cons kv rest ih =>
    by_cases h : kv.1 = k
    · simp [mapInsert, lookupMap, h]
    · simp [mapInsert, lookupMap, h, ih]

theorem lookupMap_mapInsert_ne (m : List (String × Nat)) (k k' : String) (v : Nat)
    (h : k' ≠ k) : lookupMap (mapInsert m k v) k' = lookupMap m k' := by
  induction m with
  | nil => simp [mapInsert, lookupMap, Ne.symm h]
  | cons kv rest ih =>
    by_cases hk : kv.1 = k
    · subst hk
      simp [mapInsert, lookupMap, Ne.symm h]
    · simp only [mapInsert, if_neg hk, lookupMap]
      by_cases hk2 : kv.1 = k'
      · simp [hk2]
      · simp [hk2, ih]

theorem set_update_accounts_cons (m : List (String × Nat)) (id0 id1 : String)
    (acc0 acc1 : AccountData) (rest : List (Option AccountData)) :
    set_update_accounts m id0 id1 (some acc0 :: some acc1 :: rest) =
      if acc0.len = 165 ∧ acc1.len = 165 then
        match acc0.unpackAmount, acc1.unpackAmount with
        | some x, some y => mapInsert (mapInsert m id0 x) id1 y
        | _, _ => m
      else m := by
  simp only [set_update_accounts]
  by_cases h0 : acc0.len = 165 <;> by_cases h1 : acc1.len = 165 <;> simp [h0, h1]

/-- C5 (counterexample): a snapshot of length 3 has the wrong length for a
two-account pool, yet the code accepts it and mutates both reserves (only
snapshots with fewer than two elements are rejected). -/
theorem pools_c5_counterexample :
    set_update_accounts [("A", 1), ("B", 2)] "A" "B"
        [some ⟨165, some 7⟩, some ⟨165, some 9⟩, some ⟨0, none⟩] ≠
      [("A", 1), ("B", 2)] := by
  decide

/-- C5 (amended): `set_update_accounts` rejects — leaving the reserves map
unmutated — any snapshot with fewer than two elements, a missing (`None`)
first or second element, a first or second payload that is not exactly 165
bytes, and a first or second payload whose unpack fails; when the first two
elements are valid it overwrites both reserves, ignoring any elements beyond
the first two (a longer-than-expected snapshot is not rejected). -/
theorem pools_c5_set_update_accounts_amended :
    ∀ (m : List (String × Nat)) (id0 id1 : String) (accounts : List (Option AccountData)),
      (accounts.length < 2 → set_update_accounts m id0 id1 accounts = m) ∧
      (∀ rest, accounts = none :: rest → set_update_accounts m id0 id1 accounts = m) ∧
      (∀ a rest, accounts = a :: none :: rest → set_update_accounts m id0 id1 accounts = m) ∧
      (∀ acc0 acc1 rest, accounts = some acc0 :: some acc1 :: rest →
        (acc0.len ≠ 165 ∨ acc1.len ≠ 165) → set_update_accounts m id0 id1 accounts = m) ∧
      (∀ acc0 acc1 rest, accounts = some acc0 :: some acc1 :: rest →
        (acc0.unpackAmount = none ∨ acc1.unpackAmount = none) →
        set_update_accounts m id0 id1 accounts = m) ∧
      (∀ acc0 acc1 rest x y, accounts = some acc0 :: some acc1 :: rest →
        acc0.len = 165 → acc1.len = 165 →
        acc0.unpackAmount = some x → acc1.unpackAmount = some y →
        set_update_accounts m id0 id1 accounts =
          mapInsert (mapInsert m id0 x) id1 y) := by
  intro m id0 id1 accounts
  refine ⟨?_, ?_, ?_, ?_, ?_, ?_⟩
  · intro hlen
    match accounts, hlen with
    | [], _ => rfl
    | [a], _ => rfl
  · rintro rest rfl
    rcases rest with _ | ⟨a1, rs⟩
    · rfl
    · rcases a1 with _ | a1v <;> rfl
  · rintro a rest rfl
    rcases a with _ | av <;> rfl
  · rintro acc0 acc1 rest rfl hbad
    rw [set_update_accounts_cons, if_neg]
    intro hh
    rcases hbad with hbad | hbad
    · exact hbad hh.1
    · exact hbad hh.2
  · rintro acc0 acc1 rest rfl hbad
    rw [set_update_accounts_cons]
    by_cases hlen : acc0.len = 165 ∧ acc1.len = 165
    · rw [if_pos hlen]
      rcases hbad with hbad | hbad
      · rw [hbad]
      · rw [hbad]
        cases acc0.unpackAmount <;> rfl
    · rw [if_neg hlen]
  · rintro acc0 acc1 rest x y rfl h0 h1 hx hy
    rw [set_update_accounts_cons, if_pos ⟨h0, h1⟩, hx, hy]

theorem pools_c5_set_update_accounts_witness :
    ((165 : Nat) = 165) ∧
    set_update_accounts [] "A" "B" [some ⟨165, some 7⟩, some ⟨165, some 9⟩, some ⟨0, none⟩] =
      mapInsert (mapInsert [] "A" 7) "B" 9 :=
  ⟨rfl,
    (pools_c5_set_update_accounts_amended [] "A" "B"
        [some ⟨165, some 7⟩, some ⟨165, some 9⟩, some ⟨0, none⟩]).2.2.2.2.2
      ⟨165, some 7⟩ ⟨165, some 9⟩ [some ⟨0, none⟩] 7 9 rfl rfl rfl rfl rfl⟩

/-- C9: every call to `set_update_accounts` is all-or-nothing — either the
reserves map is returned unchanged, or the snapshot's first two elements
decoded successfully and both reserve entries are overwritten with the
decoded amounts; in particular when one of the two payloads is corrupt
(unpack fails) neither entry is mutated. -/
theorem pools_c9_all_or_nothing :
    ∀ (m : List (String × Nat)) (id0 id1 : String) (accounts : List (Option AccountData)),
      (set_update_accounts m id0 id1 accounts = m ∨
        ∃ acc0 acc1 rest x y,
          accounts = some acc0 :: some acc1 :: rest ∧
          acc0.len = 165 ∧ acc1.len = 165 ∧
          acc0.unpackAmount = some x ∧ acc1.unpackAmount = some y ∧
          set_update_accounts m id0 id1 accounts = mapInsert (mapInsert m id0 x) id1 y ∧
          (id0 ≠ id1 →
            lookupMap (set_update_accounts m id0 id1 accounts) id0 = some x ∧
            lookupMap (set_update_accounts m id0 id1 accounts) id1 = some y)) ∧
      (∀ acc0 acc1 rest, accounts = some acc0 :: some acc1 :: rest →
        (acc0.unpackAmount = none ∨ acc1.unpackAmount = none) →
        set_update_accounts m id0 id1 accounts = m) := by
  intro m id0 id1 accounts
  have hC5 := pools_c5_set_update_accounts_amended m id0 id1 accounts
  refine ⟨?_, hC5.2.2.2.2.1⟩
  rcases accounts with _ | ⟨a0, _ | ⟨a1, rest⟩⟩
  · exact Or.inl (hC5.1 (by simp))
  · exact Or.inl (hC5.1 (by simp))
  · rcases a0 with _ | acc0
    · exact Or.inl (hC5.2.1 _ rfl)
    rcases a1 with _ | acc1
    · exact Or.inl (hC5.2.2.1 _ _ rfl)
    by_cases h0 : acc0.len = 165
    · by_cases h1 : acc1.len = 165
      · rcases hx : acc0.unpackAmount with _ | x
        · exact Or.inl (hC5.2.2.2.2.1 _ _ _ rfl (Or.inl hx))
        rcases hy : acc1.unpackAmount with _ | y
        · exact Or.inl (hC5.2.2.2.2.1 _ _ _ rfl (Or.inr hy))
        refine Or.inr ⟨acc0, acc1, rest, x, y, rfl, h0, h1, hx, hy, ?_, ?_⟩
        · exact hC5.2.2.2.2.2 _ _ _ _ _ rfl h0 h1 hx hy
        · intro hne
          rw [hC5.2.2.2.2.2 _ _ _ _ _ rfl h0 h1 hx hy]
          constructor
          · rw [lookupMap_mapInsert_ne _ _ _ _ hne, lookupMap_mapInsert_self]
          · rw [lookupMap_mapInsert_self]
      · exact Or.inl (hC5.2.2.2.1 _ _ _ rfl (Or.inr h1))
    · exact Or.inl (hC5.2.2.2.1 _ _ _ rfl (Or.inl h0))

theorem pools_c9_all_or_nothing_witness :
    ((⟨165, none⟩ : AccountData).unpackAmount = none ∨
      (⟨165, some 9⟩ : AccountData).unpackAmount = none) ∧
    set_update_accounts [("A", 1), ("B", 2)] "A" "B"
        [some ⟨165, none⟩, some ⟨165, some 9⟩] = [("A", 1), ("B", 2)] :=
  ⟨Or.inl rfl,
    (pools_c9_all_or_nothing [("A", 1), ("B", 2)] "A" "B"
        [some ⟨165, none⟩, some ⟨165, some 9⟩]).2 ⟨165, none⟩ ⟨165, some 9⟩ [] rfl
      (Or.inl rfl)⟩

/-! ### Close-evaluation facts shared by C1, C2, C6, C8 -/

theorem min_spread_ge_300 (ta k : Nat) (j : Bool) :
    300 ≤ calculate_min_profitable_spread ta k j := by
  simp only [calculate_min_profitable_spread]
  exact le_max_right _ _

theorem min_spread_zero_amount (k : Nat) (j : Bool) :
    calculate_min_profitable_spread 0 k j = U64MAX := by
  simp only [calculate_min_profitable_spread]
  rw [if_neg (lt_irrefl 0)]
  exact max_eq_left (by norm_num [U64MAX])

theorem poolClassParams_slip (r : Nat) :
    (poolClassParams r).1 = 300 ∨ (poolClassParams r).1 = 400 ∨ (poolClassParams r).1 = 500 := by
  unfold poolClassParams
  split
  · simp
  split
  · simp
  split <;> simp

theorem scaledPct_zero (init : Nat) : scaledPct init 0 = 0 := by
  simp [scaledPct]

theorem scaledPct_zero_init (profit : Nat) : scaledPct 0 profit = 0 := by
  simp [scaledPct]

theorem scaledPct_eq (init profit : Nat) (hi : 0 < init) (hp : profit * 10000 < U128MOD) :
    scaledPct init profit = profit * 10000 / init := by
  simp only [scaledPct]
  rw [if_pos hi, Nat.mod_eq_of_lt hp]

theorem minOutputOf_eq (nb slip : Nat) (h : nb * (10000 - slip) < U128MOD) :
    minOutputOf nb slip = nb * (10000 - slip) / 10000 := by
  simp only [minOutputOf]
  rw [if_pos h]

theorem closeEval_sound {init nb : Nat} {p : List Nat} {pp : List PoolQ}
    {sent : List String} {e : Emission} (h : e ∈ (closeEval init nb p pp sent).1) :
    e.path = p ∧ e.poolNames = pp.map PoolQ.name ∧ e.key = arbKey p pp ∧
    e.newBalance = nb ∧ e.slippageBp = (poolClassParams (firstRin pp)).1 ∧
    e.minOutput = minOutputOf nb e.slippageBp ∧
    e.optimisticScaled = scaledPct init (nb - init) ∧
    e.realisticScaled = scaledPct init (e.minOutput - init) ∧
    init < nb ∧
    e.optimisticScaled ≤ 1000 ∧
    calculate_min_profitable_spread init (p.length - 1) false ≤ e.optimisticScaled ∧
    init ≤ e.minOutput ∧
    max (calculate_min_profitable_spread init (p.length - 1) false)
      (poolClassParams (firstRin pp)).2 ≤ e.realisticScaled ∧
    e.key ∉ sent := by
  simp only [closeEval] at h
  split at h
  case isFalse => simp at h
  case isTrue h1 =>
    split at h
    case isTrue => simp at h
    case isFalse h2 =>
      split at h
      case isTrue => simp at h
      case isFalse h3 =>
        split at h
        case isTrue => simp at h
        case isFalse h4 =>
          split at h
          case isTrue => simp at h
          case isFalse h5 =>
            split at h
            case isTrue => simp at h
            case isFalse h6 =>
              simp only [List.mem_singleton] at h
              subst h
              refine ⟨rfl, rfl, rfl, rfl, rfl, rfl, rfl, rfl, h1, ?_, ?_, ?_, ?_, h6⟩
              · show scaledPct init (nb - init) ≤ 1000
                omega
              · show calculate_min_profitable_spread init (p.length - 1) false ≤
                  scaledPct init (nb - init)
                omega
              · show init ≤ minOutputOf nb (poolClassParams (firstRin pp)).1
                omega
              · show max (calculate_min_profitable_spread init (p.length - 1) false)
                    (poolClassParams (firstRin pp)).2 ≤
                  scaledPct init (minOutputOf nb (poolClassParams (firstRin pp)).1 - init)
                omega

theorem closeEval_none_snd {init nb : Nat} {p : List Nat} {pp : List PoolQ}
    {sent : List String} :
    (closeEval init nb p pp sent).1 = [] → (closeEval init nb p pp sent).2 = sent := by
  simp only [closeEval]
  split
  case isFalse => intro; rfl
  case isTrue =>
    split
    case isTrue => intro; rfl
    case isFalse =>
      split
      case isTrue => intro; rfl
      case isFalse =>
        split
        case isTrue => intro; rfl
        case isFalse =>
          split
          case isTrue => intro; rfl
          case isFalse =>
            split
            case isTrue => intro; rfl
            case isFalse => intro hh; simp at hh

theorem emission_init_pos {init nb : Nat} {p : List Nat} {pp : List PoolQ}
    {sent : List String} {e : Emission} (h : e ∈ (closeEval init nb p pp sent).1) :
    0 < init := by
  obtain ⟨-, -, -, -, -, -, -, -, -, hle, hmin, -, -, -⟩ := closeEval_sound h
  rcases Nat.eq_zero_or_pos init with h0 | hpos
  · subst h0
    rw [min_spread_zero_amount] at hmin
    have hcontra := le_trans hmin hle
    norm_num [U64MAX] at hcontra
  · exact hpos

theorem mem_processPool_cases {recur : Recur} {start init curr : Nat} {path : List Nat}
    {pp : List PoolQ} {dst : Nat} {pool : PoolQ} {sent : List String} {e : Emission}
    (h : e ∈ (processPool recur start init curr path pp dst pool sent).1) :
    (dst = start ∧ ∃ nb, e ∈ (closeEval init nb (path ++ [dst]) (pp ++ [pool]) sent).1) ∨
    (dst ≠ start ∧ dst ∉ path ∧ ∃ nb, e ∈ (recur nb (path ++ [dst]) (pp ++ [pool]) sent).1) := by
  simp only [processPool] at h
  split at h
  · simp at h
  split at h
  · simp at h
  split at h
  · simp at h
  · rename_i nb hq
    split at h
    · simp at h
    split at h
    · next hd => exact Or.inl ⟨hd, nb, h⟩
    · split at h
      · next hd hnp => exact Or.inr ⟨hd, hnp, nb, h⟩
      · simp at h

theorem mem_processPools_cases {recur : Recur} {start init curr : Nat} {path : List Nat}
    {pp : List PoolQ} {dst : Nat} :
    ∀ (pools : List PoolQ) (sent : List String) (e : Emission),
      e ∈ (processPools recur start init curr path pp dst pools sent).1 →
      ∃ pool ∈ pools, ∃ s, e ∈ (processPool recur start init curr path pp dst pool s).1 := by
  intro pools
  induction pools with
  | nil => intro sent e h; simp [processPools] at h
  | cons pool rest ih =>
    intro sent e h
    simp only [processPools] at h
    rw [List.mem_append] at h
    rcases h with h | h
    · exact ⟨pool, by simp, sent, h⟩
    · obtain ⟨q, hq, s, hs⟩ := ih _ _ h
      exact ⟨q, by simp [hq], s, hs⟩

theorem mem_processDsts_cases {cfg : SearchCfg} {recur : Recur} {start init curr : Nat}
    {path : List Nat} {pp : List PoolQ} {src : Nat} :
    ∀ (dsts : List Nat) (sent : List String) (e : Emission),
      e ∈ (processDsts cfg recur start init curr path pp src dsts sent).1 →
      ∃ dst ∈ dsts, ¬(dst ∈ path ∧ dst ≠ start) ∧
        ∃ s, e ∈ (processPools recur start init curr path pp dst (cfg.pools src dst) s).1 := by
  intro dsts
  induction dsts with
  | nil => intro sent e h; simp [processDsts] at h
  | cons dst rest ih =>
    intro sent e h
    simp only [processDsts] at h
    rw [List.mem_append] at h
    rcases h with h | h
    · split at h
      · simp at h
      · next hc => exact ⟨dst, by simp, hc, sent, h⟩
    · obtain ⟨d, hd, hc, s, hs⟩ := ih _ _ h
      exact ⟨d, by simp [hd], hc, s, hs⟩

theorem mem_brute_force_search {cfg : SearchCfg} :
    ∀ (f start init curr : Nat) (path : List Nat) (pp : List PoolQ)
      (sent : List String) (e : Emission),
      e ∈ (brute_force_search cfg f start init curr path pp sent).1 →
      ∃ nb p q s, e ∈ (closeEval init nb p q s).1 := by
  intro f
  induction f with
  | zero => intro start init curr path pp sent e h; simp [brute_force_search] at h
  | succ f ih =>
    intro start init curr path pp sent e h
    simp only [brute_force_search] at h
    split at h
    · simp at h
    · obtain ⟨dst, -, -, s1, h1⟩ := mem_processDsts_cases _ _ _ h
      obtain ⟨pool, -, s2, h2⟩ := mem_processPools_cases _ _ _ h1
      rcases mem_processPool_cases h2 with ⟨-, nb, hc⟩ | ⟨-, -, nb, hr⟩
      · exact ⟨nb, _, _, _, hc⟩
      · exact ih start init nb _ _ s2 e hr

/-! ### C2 — close-evaluation filter chain -/

/-- C2 (counterexample): the demo run emits an opportunity whose optimistic
spread strictly exceeds 10% ((new_balance − a0)·10 > a0), because the code
compares the spread rounded down to whole basis points against 1000. -/
theorem arb_c2_counterexample :
    ¬ (∀ e ∈ demoRun.1, (e.newBalance - 1000003) * 10 ≤ 1000003) := by
  decide

/-- C2 (amended): an opportunity is emitted only if the final balance
exceeds the reference amount, the optimistic spread rounded down to whole
basis points is at most 1000 (so the true spread can marginally exceed 10%,
by less than one basis point), and the slippage-adjusted output
`min_output = ⌊new_balance·(10^4 − τ)/10^4⌋` with τ the pool-class slippage
tolerance (300, 400 or 500 bp) strictly exceeds the reference amount. -/
theorem arb_c2_emission_filters (cfg : SearchCfg) (f start init curr : Nat)
    (path : List Nat) (pp : List PoolQ) (sent : List String) (e : Emission)
    (he : e ∈ (brute_force_search cfg f start init curr path pp sent).1)
    (hnb : e.newBalance * 10000 < U128MOD) :
    init < e.newBalance ∧
    (e.newBalance - init) * 10000 / init ≤ 1000 ∧
    init < e.minOutput ∧
    (e.slippageBp = 300 ∨ e.slippageBp = 400 ∨ e.slippageBp = 500) ∧
    e.minOutput = e.newBalance * (10000 - e.slippageBp) / 10000 := by
  obtain ⟨nb, p, q, s, hc⟩ := mem_brute_force_search _ _ _ _ _ _ _ _ he
  have hipos := emission_init_pos hc
  obtain ⟨hpath, hnames, hkey, hnbE, hslip, hmo, hopt, hreal, hlt, hle1000, hmin,
    hmole, hrealge, hks⟩ := closeEval_sound hc
  have hnb' : nb * 10000 < U128MOD := by rw [← hnbE]; exact hnb
  have hslipc : e.slippageBp = 300 ∨ e.slippageBp = 400 ∨ e.slippageBp = 500 := by
    rw [hslip]; exact poolClassParams_slip _
  have hprofit : (nb - init) * 10000 < U128MOD :=
    lt_of_le_of_lt (Nat.mul_le_mul_right _ (Nat.sub_le _ _)) hnb'
  have hoptval : e.optimisticScaled = (nb - init) * 10000 / init := by
    rw [hopt, scaledPct_eq _ _ hipos hprofit]
  have hmoval : e.minOutput = nb * (10000 - e.slippageBp) / 10000 := by
    rw [hmo, minOutputOf_eq]
    exact lt_of_le_of_lt (Nat.mul_le_mul_left _ (Nat.sub_le _ _)) hnb'
  have hrealpos : 300 ≤ e.realisticScaled :=
    le_trans (le_trans (min_spread_ge_300 _ _ _) (le_max_left _ _)) hrealge
  have hmogt : init < e.minOutput := by
    rcases Nat.lt_or_ge init e.minOutput with hx | hx
    · exact hx
    · have hz : e.minOutput - init = 0 := by omega
      rw [hreal, hz, scaledPct_zero] at hrealpos
      omega
  refine ⟨by rw [hnbE]; exact hlt, ?_, hmogt, hslipc, by rw [hnbE]; exact hmoval⟩
  rw [hnbE, ← hoptval]
  exact hle1000

theorem arb_c2_emission_filters_witness :
    (demoEmission ∈ demoRun.1 ∧ demoEmission.newBalance * 10000 < U128MOD) ∧
    (1000003 < demoEmission.newBalance ∧
     (demoEmission.newBalance - 1000003) * 10000 / 1000003 ≤ 1000 ∧
     1000003 < demoEmission.minOutput ∧
     (demoEmission.slippageBp = 300 ∨ demoEmission.slippageBp = 400 ∨
       demoEmission.slippageBp = 500) ∧
     demoEmission.minOutput =
       demoEmission.newBalance * (10000 - demoEmission.slippageBp) / 10000) :=
  ⟨⟨by decide, by decide⟩,
   arb_c2_emission_filters cfgDemo 3 0 1000003 1000003 [0] [] [] demoEmission
     (by decide) (by decide)⟩

/-! ### C8 — realistic vs optimistic spread -/

/-- C8: for every cycle candidate evaluated at close — every input of the
close evaluation that reaches the realistic-spread computation, i.e. that
passed the `new_balance > init_balance` guard and the gas-minimum filter,
whether or not it is later rejected by the final minimum-spread filter or
the deduplication check — the realistic (slippage-adjusted) spread is at
most the optimistic spread; since the pool-class slippage tolerance is never
zero, equality never occurs (so "equality only at zero tolerance" holds
vacuously) — in fact the realistic spread is at least 300 bp below the
optimistic one.  The spreads below are the exact expressions `closeEval`
computes for the candidate `(init, nb, newPath, newPP)`. -/
theorem arb_c8_realistic_le_optimistic (init nb : Nat) (newPath : List Nat)
    (newPP : List PoolQ)
    (h1 : init < nb)
    (hgas : calculate_min_profitable_spread init (newPath.length - 1) false ≤
      scaledPct init (nb - init))
    (hnb : nb * 10000 < U128MOD) :
    scaledPct init (minOutputOf nb (poolClassParams (firstRin newPP)).1 - init) ≤
      scaledPct init (nb - init) ∧
    (scaledPct init (minOutputOf nb (poolClassParams (firstRin newPP)).1 - init) =
        scaledPct init (nb - init) →
      (poolClassParams (firstRin newPP)).1 = 0) := by
  have hipos : 0 < init := by
    rcases Nat.eq_zero_or_pos init with h0 | h
    · subst h0
      rw [min_spread_zero_amount, scaledPct_zero_init] at hgas
      norm_num [U64MAX] at hgas
    · exact h
  have hτ : 300 ≤ (poolClassParams (firstRin newPP)).1 ∧
      (poolClassParams (firstRin newPP)).1 ≤ 500 := by
    rcases poolClassParams_slip (firstRin newPP) with hh | hh | hh <;> rw [hh] <;> omega
  have hmoval : minOutputOf nb (poolClassParams (firstRin newPP)).1 =
      nb * (10000 - (poolClassParams (firstRin newPP)).1) / 10000 := by
    rw [minOutputOf_eq]
    exact lt_of_le_of_lt (Nat.mul_le_mul_left _ (Nat.sub_le _ _)) hnb
  set τ := (poolClassParams (firstRin newPP)).1
  set mo := minOutputOf nb τ with hmodef
  have hprofit : (nb - init) * 10000 < U128MOD :=
    lt_of_le_of_lt (Nat.mul_le_mul_right _ (Nat.sub_le _ _)) hnb
  have hoptval : scaledPct init (nb - init) = (nb - init) * 10000 / init :=
    scaledPct_eq _ _ hipos hprofit
  have hmole2 : mo ≤ nb := by
    rw [hmoval]
    calc nb * (10000 - τ) / 10000 ≤ nb * 10000 / 10000 :=
          Nat.div_le_div_right (Nat.mul_le_mul_left _ (Nat.sub_le _ _))
      _ = nb := Nat.mul_div_cancel _ (by norm_num)
  have hrprofit : (mo - init) * 10000 < U128MOD :=
    lt_of_le_of_lt (Nat.mul_le_mul_right _ (le_trans (Nat.sub_le _ _) hmole2)) hnb
  have hrealval : scaledPct init (mo - init) = (mo - init) * 10000 / init :=
    scaledPct_eq _ _ hipos hrprofit
  -- the gas filter guarantees at least 300 bp of optimistic spread
  have hopt300 : 300 ≤ (nb - init) * 10000 / init := by
    have hh := le_trans (min_spread_ge_300 init (newPath.length - 1) false) hgas
    rw [hoptval] at hh
    exact hh
  have hA300 : 300 * init ≤ (nb - init) * 10000 := (Nat.le_div_iff_mul_le hipos).1 hopt300
  -- numerator chain: (min_output - init)·10^4 ≤ (nb - init)·10^4 - 300·init
  have hkey2 : (mo - init) * 10000 + 300 * init ≤ (nb - init) * 10000 := by
    have hm1 : mo * 10000 ≤ nb * (10000 - τ) := by
      rw [hmoval]; exact Nat.div_mul_le_self _ _
    have hm2 : nb * (10000 - τ) = nb * 10000 - nb * τ := by
      rw [mul_comm nb _, Nat.sub_mul, mul_comm _ nb, mul_comm _ nb]
    have hm3 : (mo - init) * 10000 = mo * 10000 - init * 10000 := Nat.sub_mul _ _ _
    have hm4 : (nb - init) * 10000 = nb * 10000 - init * 10000 := Nat.sub_mul _ _ _
    have hm5 : init * τ ≤ nb * τ := Nat.mul_le_mul_right _ (le_of_lt h1)
    have hm6 : init * 300 ≤ init * τ := Nat.mul_le_mul_left _ hτ.1
    omega
  have hdivle : scaledPct init (mo - init) ≤ ((nb - init) * 10000 - init * 300) / init := by
    rw [hrealval]
    exact Nat.div_le_div_right (by omega)
  have hdiveq : ((nb - init) * 10000 - init * 300) / init =
      (nb - init) * 10000 / init - 300 :=
    Nat.sub_mul_div _ _ _ (by omega)
  have hstrict : scaledPct init (mo - init) < scaledPct init (nb - init) := by
    rw [hoptval]
    rw [hdiveq] at hdivle
    omega
  exact ⟨le_of_lt hstrict, fun heq => absurd heq (ne_of_lt hstrict)⟩

theorem arb_c8_realistic_le_optimistic_witness :
    (1000003 < 1100004 ∧
     calculate_min_profitable_spread 1000003 (([0, 1, 0] : List Nat).length - 1) false ≤
       scaledPct 1000003 (1100004 - 1000003) ∧
     1100004 * 10000 < U128MOD) ∧
    (scaledPct 1000003
        (minOutputOf 1100004 (poolClassParams (firstRin [poolA, poolB])).1 - 1000003) ≤
      scaledPct 1000003 (1100004 - 1000003) ∧
     (scaledPct 1000003
         (minOutputOf 1100004 (poolClassParams (firstRin [poolA, poolB])).1 - 1000003) =
         scaledPct 1000003 (1100004 - 1000003) →
       (poolClassParams (firstRin [poolA, poolB])).1 = 0)) :=
  ⟨⟨by decide, by decide, by decide⟩,
   arb_c8_realistic_le_optimistic 1000003 1100004 [0, 1, 0] [poolA, poolB]
     (by decide) (by decide) (by decide)⟩

/-! ### C7 — provider health score -/

/-- C7 (counterexample): for a provider with priority 1, cap 1000 and one
recorded success, the code scores 98 while the claim's formula gives
0.98 — the code computes the weighted sum on a 0–100 scale (weights 60/20/20,
then clamps), not the claimed 0.6/0.2/0.2 scale. -/
theorem websocket_c7_counterexample :
    calculate_health_score 1 1000 1 0 = 98 ∧
    claimed_health_score 1 1000 1 0 = 49 / 50 ∧
    (98 : ℚ) ≠ 49 / 50 := by
  refine ⟨?_, ?_, by norm_num⟩
  · norm_num [calculate_health_score]
  · norm_num [claimed_health_score]

/-- C7 (amended): with recorded history the health score equals 100 times
the claimed weighted sum, clamped into [0, 100]; with no history it is
`100 − 10·priority` as claimed (unclamped). -/
theorem websocket_c7_health_score_amended :
    ∀ (priority rate_limit success_count failure_count : Nat),
      calculate_health_score priority rate_limit success_count failure_count =
        if success_count + failure_count = 0 then (100 : ℚ) - 10 * priority
        else
          min (max (100 * claimed_health_score priority rate_limit success_count failure_count) 0)
            100 := by
  intro p c s f
  unfold calculate_health_score claimed_health_score
  by_cases h : s + f = 0
  · rw [if_pos h, if_pos h]; ring
  · rw [if_neg h, if_neg h]
    congr 2
    ring

/-! ### C1 — shape of emitted cycles -/

theorem pathOK_of_shape (start : Nat) (rest : List Nat) (e : Emission)
    (hpath : e.path = (start :: rest) ++ [start])
    (hnod : (start :: rest).Nodup) (h1 : 1 ≤ rest.length) (h2 : rest.length ≤ 3) :
    PathOK start e := by
  obtain ⟨hnotin, hrest⟩ := List.nodup_cons.mp hnod
  refine ⟨?_, ?_, ?_, ?_, ?_⟩ <;> rw [hpath]
  · simp
  · rw [List.getLast?_concat]
  · simpa using hrest
  · simpa using hnotin
  · have hlen : ((start :: rest) ++ [start]).length = rest.length + 2 := by simp
    rw [hlen]
    omega

theorem pathOK_processPool {recur : Recur} {start init curr : Nat} {path : List Nat}
    {pp : List PoolQ} {dst : Nat} {pool : PoolQ} {sent : List String}
    (hrec : ∀ nb q s, dst ∉ path → dst ≠ start →
      ∀ e ∈ (recur nb (path ++ [dst]) q s).1, PathOK start e)
    (hhead : path.head? = some start) (hnod : path.Nodup) (hlen : path.length ≤ 3)
    (hclose : dst = start → 2 ≤ path.length) :
    ∀ e ∈ (processPool recur start init curr path pp dst pool sent).1, PathOK start e := by
  intro e h
  rcases mem_processPool_cases h with ⟨hd, nb, hc⟩ | ⟨hd, hnp, nb, hr⟩
  · have hshape : ∃ rest, path = start :: rest := by
      rcases path with _ | ⟨p0, r⟩
      · simp at hhead
      · have hp0 : p0 = start := by simpa using hhead
        exact ⟨r, by rw [hp0]⟩
    obtain ⟨rest, rfl⟩ := hshape
    have hlen2 := hclose hd
    simp only [List.length_cons] at hlen2 hlen
    have hpath := (closeEval_sound hc).1
    rw [hd] at hpath
    exact pathOK_of_shape start rest e hpath hnod (by omega) (by omega)
  · exact hrec nb _ sent hnp hd e hr

theorem pathOK_search {cfg : SearchCfg} {start : Nat} (hself : start ∉ cfg.edges start) :
    ∀ (f init curr : Nat) (path : List Nat) (pp : List PoolQ) (sent : List String),
      path.head? = some start → path.Nodup → path.length ≤ 4 →
      ∀ e ∈ (brute_force_search cfg f start init curr path pp sent).1, PathOK start e := by
  intro f
  induction f with
  | zero =>
    intro init curr path pp sent _ _ _ e h
    simp [brute_force_search] at h
  | succ f ih =>
    intro init curr path pp sent hhead hnod hlen4 e h
    simp only [brute_force_search] at h
    split at h
    · simp at h
    · next hne4 =>
      obtain ⟨dst, hdmem, hskip, s1, h1⟩ := mem_processDsts_cases _ _ _ h
      obtain ⟨pool, hpmem, s2, h2⟩ := mem_processPools_cases _ _ _ h1
      have hlen3 : path.length ≤ 3 := by
        rcases Nat.lt_or_ge path.length 4 with hx | hx
        · omega
        · exact absurd (by omega : path.length = 4) hne4
      refine pathOK_processPool ?_ hhead hnod hlen3 ?_ e h2
      · intro nb q s hnp hd e2 he2
        refine ih init nb (path ++ [dst]) q s ?_ ?_ ?_ e2 he2
        · rcases path with _ | ⟨p0, r⟩
          · simp at hhead
          · simpa using hhead
        · rw [List.nodup_append]
          refine ⟨hnod, List.nodup_singleton _, ?_⟩
          intro a ha hb
          rw [List.mem_singleton] at hb
          subst hb
          exact hnp ha
        · have : (path ++ [dst]).length = path.length + 1 := by simp
          omega
      · intro hd
        have hshape : ∃ r, path = start :: r := by
          rcases path with _ | ⟨p0, r⟩
          · simp at hhead
          · have hp0 : p0 = start := by simpa using hhead
            exact ⟨r, by rw [hp0]⟩
        obtain ⟨r, rfl⟩ := hshape
        rcases r with _ | ⟨p1, r2⟩
        · rw [hd] at hdmem
          exact absurd (by simpa using hdmem) hself
        · simp only [List.length_cons]
          omega

/-- C1: every opportunity the DFS emits from a start vertex with no
self-loop is a cycle: first and last vertex equal the start, the
intermediate vertices are pairwise distinct and differ from the start, and
the vertex count lies in {3, 4, 5} (in fact only 3 or 4 occur); moreover the
recursion returns immediately as soon as the path holds 4 vertices. -/
theorem arb_c1_cycle_shape (cfg : SearchCfg) (start init : Nat) (sent : List String)
    (f : Nat) (hself : start ∉ cfg.edges start) :
    (∀ e ∈ (brute_force_search cfg f start init init [start] [] sent).1,
      e.path.head? = some start ∧ e.path.getLast? = some start ∧
      ((e.path.drop 1).dropLast).Nodup ∧ start ∉ (e.path.drop 1).dropLast ∧
      (e.path.length = 3 ∨ e.path.length = 4 ∨ e.path.length = 5)) ∧
    (∀ (g curr : Nat) (path : List Nat) (pp : List PoolQ) (s : List String),
      path.length = 4 → brute_force_search cfg g start init curr path pp s = ([], s)) := by
  constructor
  · intro e h
    exact pathOK_search hself f init init [start] [] sent (by simp) (by simp) (by simp) e h
  · intro g curr path pp s hlen
    cases g with
    | zero => rfl
    | succ g => simp [brute_force_search, hlen]

theorem arb_c1_cycle_shape_witness :
    (0 ∉ cfgDemo.edges 0) ∧
    (∀ e ∈ (brute_force_search cfgDemo 3 0 1000003 1000003 [0] [] []).1,
      e.path.head? = some 0 ∧ e.path.getLast? = some 0 ∧
      ((e.path.drop 1).dropLast).Nodup ∧ 0 ∉ (e.path.drop 1).dropLast ∧
      (e.path.length = 3 ∨ e.path.length = 4 ∨ e.path.length = 5)) :=
  ⟨by decide, (arb_c1_cycle_shape cfgDemo 0 1000003 [] 3 (by decide)).1⟩

/-! ### C6 — deduplication -/

theorem goodRun_id (sent : List String) : GoodRun sent ([], sent) :=
  ⟨List.nodup_nil, by simp, by simp⟩

theorem goodRun_seq {sent : List String} {r₁ r₂ : SearchRes}
    (h₁ : GoodRun sent r₁) (h₂ : GoodRun r₁.2 r₂) :
    GoodRun sent (r₁.1 ++ r₂.1, r₂.2) := by
  obtain ⟨hn₁, hf₁, hm₁⟩ := h₁
  obtain ⟨hn₂, hf₂, hm₂⟩ := h₂
  refine ⟨?_, ?_, ?_⟩
  · rw [List.map_append, List.nodup_append]
    refine ⟨hn₁, hn₂, ?_⟩
    intro k hk1 hk2
    rw [List.mem_map] at hk2
    obtain ⟨e, he, hek⟩ := hk2
    have hks : k ∈ r₁.2 := (hm₁ k).2 (Or.inl hk1)
    rw [← hek] at hks
    exact hf₂ e he hks
  · intro e he
    rw [List.mem_append] at he
    rcases he with he | he
    · exact hf₁ e he
    · intro hk
      exact hf₂ e he ((hm₁ e.key).2 (Or.inr hk))
  · intro k
    rw [List.map_append, List.mem_append]
    constructor
    · intro hk
      rcases (hm₂ k).1 hk with hk2 | hk1
      · exact Or.inl (Or.inr hk2)
      · rcases (hm₁ k).1 hk1 with hkk | hks
        · exact Or.inl (Or.inl hkk)
        · exact Or.inr hks
    · intro hk
      rcases hk with (hk | hk) | hk
      · exact (hm₂ k).2 (Or.inr ((hm₁ k).2 (Or.inl hk)))
      · exact (hm₂ k).2 (Or.inl hk)
      · exact (hm₂ k).2 (Or.inr ((hm₁ k).2 (Or.inr hk)))

theorem goodRun_closeEval (init nb : Nat) (p : List Nat) (pp : List PoolQ)
    (sent : List String) : GoodRun sent (closeEval init nb p pp sent) := by
  simp only [closeEval]
  split
  case isFalse => exact goodRun_id sent
  case isTrue h1 =>
    split
    case isTrue => exact goodRun_id sent
    case isFalse h2 =>
      split
      case isTrue => exact goodRun_id sent
      case isFalse h3 =>
        split
        case isTrue => exact goodRun_id sent
        case isFalse h4 =>
          split
          case isTrue => exact goodRun_id sent
          case isFalse h5 =>
            split
            case isTrue => exact goodRun_id sent
            case isFalse h6 =>
              refine ⟨List.nodup_singleton _, ?_, ?_⟩
              · intro e he
                simp only [List.mem_singleton] at he
                subst he
                exact h6
              · intro k
                simp

theorem goodRun_processPool {recur : Recur} {start init curr : Nat} {path : List Nat}
    {pp : List PoolQ} {dst : Nat} {pool : PoolQ}
    (hrec : ∀ nb q s, GoodRun s (recur nb (path ++ [dst]) q s)) :
    ∀ sent, GoodRun sent (processPool recur start init curr path pp dst pool sent) := by
  intro sent
  simp only [processPool]
  split
  · exact goodRun_id sent
  split
  · exact goodRun_id sent
  split
  · exact goodRun_id sent
  · rename_i nb hq
    split
    · exact goodRun_id sent
    split
    · exact goodRun_closeEval init nb _ _ sent
    split
    · exact hrec nb _ sent
    · exact goodRun_id sent

theorem goodRun_processPools {recur : Recur} {start init curr : Nat} {path : List Nat}
    {pp : List PoolQ} {dst : Nat}
    (hrec : ∀ nb q s, GoodRun s (recur nb (path ++ [dst]) q s)) :
    ∀ (pools : List PoolQ) (sent : List String),
      GoodRun sent (processPools recur start init curr path pp dst pools sent) := by
  intro pools
  induction pools with
  | nil => intro sent; exact goodRun_id sent
  | cons pool rest ih =>
    intro sent
    simp only [processPools]
    exact goodRun_seq (goodRun_processPool hrec sent) (ih _)

theorem goodRun_processDsts {cfg : SearchCfg} {recur : Recur} {start init curr : Nat}
    {path : List Nat} {pp : List PoolQ} {src : Nat}
    (hrec : ∀ nb p' q s, GoodRun s (recur nb p' q s)) :
    ∀ (dsts : List Nat) (sent : List String),
      GoodRun sent (processDsts cfg recur start init curr path pp src dsts sent) := by
  intro dsts
  induction dsts with
  | nil => intro sent; exact goodRun_id sent
  | cons dst rest ih =>
    intro sent
    simp only [processDsts]
    refine goodRun_seq ?_ (ih _)
    split
    · exact goodRun_id sent
    · exact goodRun_processPools (fun nb q s => hrec nb _ q s) _ sent

theorem goodRun_search {cfg : SearchCfg} :
    ∀ (f start init curr : Nat) (path : List Nat) (pp : List PoolQ) (sent : List String),
      GoodRun sent (brute_force_search cfg f start init curr path pp sent) := by
  intro f
  induction f with
  | zero => intro start init curr path pp sent; exact goodRun_id sent
  | succ f ih =>
    intro start init curr path pp sent
    simp only [brute_force_search]
    split
    · exact goodRun_id sent
    · exact goodRun_processDsts (fun nb p' q s => ih start init nb p' q s) _ sent

/-- C6: across two searches within one process lifetime (the `sent_arbs` set
threaded from the first into the second), the keys of all emitted
opportunity records are pairwise distinct and none was already in the
initial set — so a cycle whose deduplication key has already been emitted is
never emitted a second time, and in live mode the transactions sent are
exactly the emitted records, hence also at most one per key. -/
theorem arb_c6_dedup (cfg : SearchCfg) (f₁ f₂ start init curr₁ curr₂ : Nat)
    (path₁ path₂ : List Nat) (pp₁ pp₂ : List PoolQ) (sent : List String)
    (r₁ r₂ : SearchRes)
    (h₁ : brute_force_search cfg f₁ start init curr₁ path₁ pp₁ sent = r₁)
    (h₂ : brute_force_search cfg f₂ start init curr₂ path₂ pp₂ r₁.2 = r₂) :
    ((r₁.1 ++ r₂.1).map Emission.key).Nodup ∧
    (∀ e ∈ r₁.1 ++ r₂.1, e.key ∉ sent) ∧
    ((transactionsOf cfg r₁ ++ transactionsOf cfg r₂).map Emission.key).Nodup := by
  have g₁ : GoodRun sent r₁ := by
    rw [← h₁]; exact goodRun_search f₁ start init curr₁ path₁ pp₁ sent
  have g₂ : GoodRun r₁.2 r₂ := by
    rw [← h₂]; exact goodRun_search f₂ start init curr₂ path₂ pp₂ r₁.2
  have gseq := goodRun_seq g₁ g₂
  refine ⟨gseq.1, gseq.2.1, ?_⟩
  by_cases hd : cfg.dryRun
  · simp [transactionsOf, hd]
  · simp only [transactionsOf, if_neg hd]
    exact gseq.1

theorem arb_c6_dedup_witness :
    (brute_force_search cfgDemo 3 0 1000003 1000003 [0] [] [] = demoRun) ∧
    (brute_force_search cfgDemo 3 0 1000003 1000003 [0] [] demoRun.2 = demoRun2) ∧
    (((demoRun.1 ++ demoRun2.1).map Emission.key).Nodup ∧
     (∀ e ∈ demoRun.1 ++ demoRun2.1, e.key ∉ ([] : List String)) ∧
     ((transactionsOf cfgDemo demoRun ++ transactionsOf cfgDemo demoRun2).map
        Emission.key).Nodup) :=
  ⟨rfl, rfl,
    arb_c6_dedup cfgDemo 3 3 0 1000003 1000003 1000003 [0] [0] [] [] [] demoRun demoRun2
      rfl rfl⟩

/-! ### C10 — termination -/

theorem processPool_congr {recur₁ recur₂ : Recur} {start init curr : Nat}
    {path : List Nat} {pp : List PoolQ} {dst : Nat} {pool : PoolQ} {sent : List String}
    (H : dst ∉ path → dst ≠ start →
      ∀ nb q s, recur₁ nb (path ++ [dst]) q s = recur₂ nb (path ++ [dst]) q s) :
    processPool recur₁ start init curr path pp dst pool sent =
      processPool recur₂ start init curr path pp dst pool sent := by
  simp only [processPool]
  split
  · rfl
  split
  · rfl
  split
  · rfl
  · rename_i nb hq
    split
    · rfl
    split
    · rfl
    · next hd =>
      split
      · next hnp => exact H hnp hd nb _ sent
      · rfl

theorem processPools_congr {recur₁ recur₂ : Recur} {start init curr : Nat}
    {path : List Nat} {pp : List PoolQ} {dst : Nat}
    (H : dst ∉ path → dst ≠ start →
      ∀ nb q s, recur₁ nb (path ++ [dst]) q s = recur₂ nb (path ++ [dst]) q s) :
    ∀ (pools : List PoolQ) (sent : List String),
      processPools recur₁ start init curr path pp dst pools sent =
        processPools recur₂ start init curr path pp dst pools sent := by
  intro pools
  induction pools with
  | nil => intro sent; rfl
  | cons pool rest ih =>
    intro sent
    simp only [processPools]
    rw [processPool_congr H, ih]

theorem processDsts_congr {cfg : SearchCfg} {recur₁ recur₂ : Recur}
    {start init curr : Nat} {path : List Nat} {pp : List PoolQ} {src : Nat} :
    ∀ (dsts : List Nat),
      (∀ dst ∈ dsts, dst ∉ path → dst ≠ start →
        ∀ nb q s, recur₁ nb (path ++ [dst]) q s = recur₂ nb (path ++ [dst]) q s) →
      ∀ sent,
        processDsts cfg recur₁ start init curr path pp src dsts sent =
          processDsts cfg recur₂ start init curr path pp src dsts sent := by
  intro dsts
  induction dsts with
  | nil => intro _ sent; rfl
  | cons dst rest ih =>
    intro H sent
    simp only [processDsts]
    rw [processPools_congr (H dst (by simp)), ih (fun d hd => H d (by simp [hd]))]

theorem search_fuel_irrelevant {cfg : SearchCfg} {n : Nat}
    (hedge : ∀ u v, v ∈ cfg.edges u → v < n) (start init : Nat) :
    ∀ (f curr : Nat) (path : List Nat) (pp : List PoolQ) (sent : List String),
      (Finset.range n \ path.toFinset).card < f →
      brute_force_search cfg f start init curr path pp sent =
        brute_force_search cfg ((Finset.range n \ path.toFinset).card + 1)
          start init curr path pp sent := by
  intro f
  induction f using Nat.strong_induction_on with
  | _ f ih =>
    intro curr path pp sent hcard
    obtain ⟨f1, rfl⟩ : ∃ f1, f = f1 + 1 := ⟨f - 1, by omega⟩
    simp only [brute_force_search]
    split
    · rfl
    · apply processDsts_congr
      intro dst hdmem hnp hd nb q s
      have hdn : dst < n := hedge _ _ hdmem
      have hdset : dst ∈ Finset.range n \ path.toFinset := by
        rw [Finset.mem_sdiff, Finset.mem_range]
        exact ⟨hdn, fun hh => hnp (List.mem_toFinset.mp hh)⟩
      have htof : (path ++ [dst]).toFinset = insert dst path.toFinset := by
        rw [List.toFinset_append]
        have hsingle : ([dst] : List Nat).toFinset = {dst} := by simp
        rw [hsingle, Finset.union_comm, ← Finset.insert_eq]
      have hcard2 : (Finset.range n \ (path ++ [dst]).toFinset).card =
          (Finset.range n \ path.toFinset).card - 1 := by
        rw [htof, Finset.sdiff_insert, Finset.card_erase_of_mem hdset]
      have hm1 : 1 ≤ (Finset.range n \ path.toFinset).card := by
        have := Finset.card_pos.mpr ⟨dst, hdset⟩
        omega
      have e₁ := ih f1 (by omega) nb (path ++ [dst]) q s (by omega)
      have e₂ := ih ((Finset.range n \ path.toFinset).card) (by omega) nb (path ++ [dst])
        q s (by omega)
      rw [e₁, e₂]

/-- C10: the DFS terminates — on a finite graph whose vertices lie below
`n`, the result of `brute_force_search` is the same for every recursion fuel
of at least `n + 1`, because each recursive call extends the path by one
vertex not already in it; and a path of 4 vertices returns immediately. -/
theorem arb_c10_termination (cfg : SearchCfg) (n start init curr : Nat)
    (path : List Nat) (pp : List PoolQ) (sent : List String)
    (hedge : ∀ u v, v ∈ cfg.edges u → v < n) (hpath : path ≠ []) :
    (∀ f g, n + 1 ≤ f → n + 1 ≤ g →
      brute_force_search cfg f start init curr path pp sent =
        brute_force_search cfg g start init curr path pp sent) ∧
    (path.length = 4 → ∀ f,
      brute_force_search cfg f start init curr path pp sent = ([], sent)) := by
  constructor
  · intro f g hf hg
    have hcard : (Finset.range n \ path.toFinset).card ≤ n := by
      calc (Finset.range n \ path.toFinset).card ≤ (Finset.range n).card :=
            Finset.card_le_card (Finset.sdiff_subset)
        _ = n := Finset.card_range n
    rw [search_fuel_irrelevant hedge start init f curr path pp sent (by omega),
      search_fuel_irrelevant hedge start init g curr path pp sent (by omega)]
  · intro hlen f
    cases f with
    | zero => rfl
    | succ f => simp [brute_force_search, hlen]

theorem arb_c10_termination_witness :
    ((∀ u v, v ∈ cfgDemo.edges u → v < 2) ∧ ([0] : List Nat) ≠ []) ∧
    ((∀ f g, 2 + 1 ≤ f → 2 + 1 ≤ g →
      brute_force_search cfgDemo f 0 1000003 1000003 [0] [] [] =
        brute_force_search cfgDemo g 0 1000003 1000003 [0] [] []) ∧
     (([0] : List Nat).length = 4 → ∀ f,
      brute_force_search cfgDemo f 0 1000003 1000003 [0] [] [] = ([], []))) := by
  have hedge : ∀ u v, v ∈ cfgDemo.edges u → v < 2 := by
    intro u v hv
    simp only [cfgDemo] at hv
    split at hv <;> first
      | (simp only [List.mem_singleton] at hv; omega)
      | skip
    split at hv <;> first
      | (simp only [List.mem_singleton] at hv; omega)
      | simp at hv
  exact ⟨⟨hedge, by decide⟩,
    arb_c10_termination cfgDemo 2 0 1000003 1000003 [0] [] [] hedge (by decide)⟩
